import Mathlib

set_option maxRecDepth 40000

/-!
Verification of the thermocouple conversion library (typek.py).

The source is embedded shallowly: Python floats become exact rationals,
Python floor division and float modulo become explicit floor operations,
`bisect.bisect` (bisect_right) becomes a fuel-indexed binary-search loop,
and a raised `RangeError` becomes the error branch of `Except`.
-/

/-- Python float modulo `a % b`: the remainder taking the sign of the
divisor, `a - b * floor (a / b)`.  The source uses `x_value % 10`. -/
def pymod (a b : ℚ) : ℚ := a - b * ⌊a / b⌋

/-- Python `range(start, stop, step)` for a positive step, as a list of
integers.  The source builds the degrees column with
`list(range(min_degrees, max_degrees+degrees_interval, degrees_interval))`. -/
def pyrange (start stop step : ℤ) : List ℤ :=
  (List.range ((stop - start + step - 1) / step).toNat).map (fun i => start + step * i)

/-- class Interpolate: two parallel arrays, the x array having a fixed
interval (stored as `int(x_interval)` in `__init__`). -/
structure Interpolate where
  x_interval : ℤ
  x_array : List ℚ
  y_array : List ℚ

/-- Method `Interpolate.from_x`: find the y result given x.
`idx = int(x_value//self.x_interval+28)`, `x = x_value % 10`,
`y = ((y2 - y1) / float(self.x_interval)) * x + y1`. -/
def Interpolate.from_x (self : Interpolate) (x_value : ℚ) : ℚ :=
  let idx : ℤ := ⌊x_value / (self.x_interval : ℚ)⌋ + 28
  let x : ℚ := pymod x_value 10
  let y1 := self.y_array.getD (idx - 1).toNat 0
  let y2 := self.y_array.getD idx.toNat 0
  ((y2 - y1) / (self.x_interval : ℚ)) * x + y1

/-- The loop of CPython `bisect.bisect_right`:
`while lo < hi: mid = (lo+hi)//2; if v < a[mid]: hi = mid else: lo = mid+1`.
The loop strictly shrinks `hi - lo`, so running it with `hi - lo` as fuel
(the caller passes the list length) reproduces the loop exactly. -/
def bisect_rec (a : List ℚ) (v : ℚ) : ℕ → ℕ → ℕ → ℕ
  | 0, lo, _ => lo
  | fuel + 1, lo, hi =>
    if lo < hi then
      let mid := (lo + hi) / 2
      if v < a.getD mid 0 then bisect_rec a v fuel lo mid
      else bisect_rec a v fuel (mid + 1) hi
    else lo

/-- Python `bisect.bisect(a, v)` = `bisect_right(a, v)` with `lo = 0`, `hi = len(a)`. -/
def bisect (a : List ℚ) (v : ℚ) : ℕ :=
  bisect_rec a v a.length 0 a.length

/-- Method `Interpolate.from_y`: find the x result given y.
`idx = bisect(self.y_array, y_value)`, `offset = self.x_array[idx-1]`,
`x = (float(self.x_interval) / (y2 - y1)) * y + offset`. -/
def Interpolate.from_y (self : Interpolate) (y_value : ℚ) : ℚ :=
  let idx := bisect self.y_array y_value
  let offset := self.x_array.getD (idx - 1) 0
  let y1 := self.y_array.getD (idx - 1) 0
  let y2 := self.y_array.getD idx 0
  let y := y_value - y1
  ((self.x_interval : ℚ) / (y2 - y1)) * y + offset

/-- class RangeError(Exception): raised with a single message that formats
the offending value in front of the fixed text mV out of range.; modelled as
the offending value together with the constant text of the message. -/
structure RangeError where
  value : ℚ
  text : String
  deriving DecidableEq, Repr

/-- class ThermocoupleMixin: the per-type constants the mixin reads from
the subclass (`self.degrees_interval`, `self.min_degrees`, ...). -/
structure ThermocoupleMixin where
  degrees_interval : ℤ
  min_degrees : ℚ
  max_degrees : ℚ
  min_mv : ℚ
  max_mv : ℚ
  degrees : List ℚ
  millivolts : List ℚ

/-- Constructor `ThermocoupleMixin.__init__`:
`self.interp = Interpolate(self.degrees_interval, self.degrees, self.millivolts)`. -/
def ThermocoupleMixin.interp (self : ThermocoupleMixin) : Interpolate :=
  ⟨self.degrees_interval, self.degrees, self.millivolts⟩

/-- Method `ThermocoupleMixin.degs_to_mv`: raise RangeError unless
`min_degrees <= degrees < max_degrees`, else `interp.from_x(degrees)`. -/
def ThermocoupleMixin.degs_to_mv (self : ThermocoupleMixin) (degrees : ℚ) :
    Except RangeError ℚ :=
  if self.min_degrees ≤ degrees ∧ degrees < self.max_degrees then
    Except.ok (self.interp.from_x degrees)
  else
    Except.error ⟨degrees, "mV out of range."⟩

/-- Method `ThermocoupleMixin.mv_to_degs`: raise RangeError unless
`min_mv <= mv < max_mv`, else `interp.from_y(mv)`. -/
def ThermocoupleMixin.mv_to_degs (self : ThermocoupleMixin) (mv : ℚ) :
    Except RangeError ℚ :=
  if self.min_mv ≤ mv ∧ mv < self.max_mv then
    Except.ok (self.interp.from_y mv)
  else
    Except.error ⟨mv, "mV out of range."⟩

/-- Method `ThermocoupleMixin.temperature`:
`return self.mv_to_degs(self.degs_to_mv(reference_temperature) + thermocouple_millivolts)`;
a RangeError raised inside `degs_to_mv` aborts the call. -/
def ThermocoupleMixin.temperature (self : ThermocoupleMixin)
    (reference_temperature thermocouple_millivolts : ℚ) : Except RangeError ℚ :=
  match self.degs_to_mv reference_temperature with
  | Except.ok mv => self.mv_to_degs (mv + thermocouple_millivolts)
  | Except.error e => Except.error e

/-- class TypeK(ThermocoupleMixin): the literal constants of the source. -/
def TypeK : ThermocoupleMixin where
  degrees_interval := 10
  min_degrees := -270
  max_degrees := 1370
  min_mv := -6.458
  max_mv := 54.818
  degrees := (pyrange (-270) (1370 + 10) 10).map (fun n => (n : ℚ))
  millivolts := [-6.458, -6.441, -6.404, -6.344, -6.262, -6.158, -6.035, -5.891,
    -5.730, -5.550, -5.354, -5.141, -4.913, -4.669, -4.411, -4.138, -3.852, -3.554,
    -3.243, -2.920, -2.587, -2.243, -1.889, -1.527, -1.156, -0.778, -0.392, 0.000,
    0.397, 0.798, 1.203, 1.612, 2.023, 2.436, 2.851, 3.267, 3.682, 4.096, 4.509,
    4.920, 5.328, 5.735, 6.138, 6.540, 6.941, 7.340, 7.739, 8.138, 8.539, 8.940,
    9.343, 9.747, 10.153, 10.561, 10.971, 11.382, 11.795, 12.209, 12.624, 13.040,
    13.457, 13.874, 14.293, 14.713, 15.133, 15.554, 15.975, 16.397, 16.820, 17.243,
    17.667, 18.091, 18.516, 18.941, 19.366, 19.792, 20.218, 20.644, 21.071, 21.497,
    21.924, 22.350, 22.776, 23.203, 23.629, 24.055, 24.480, 24.905, 25.330, 25.755,
    26.179, 26.602, 27.025, 27.447, 27.869, 28.289, 28.710, 29.129, 29.548, 29.965,
    30.382, 30.798, 31.213, 31.628, 32.041, 32.453, 32.865, 33.275, 33.685, 34.093,
    34.501, 34.908, 35.313, 35.718, 36.121, 36.524, 36.925, 37.326, 37.725, 38.124,
    38.522, 38.918, 39.314, 39.708, 40.101, 40.494, 40.885, 41.276, 41.665, 42.053,
    42.440, 42.826, 43.211, 43.595, 43.978, 44.359, 44.740, 45.119, 45.497, 45.873,
    46.249, 46.623, 46.995, 47.367, 47.737, 48.105, 48.473, 48.838, 49.202, 49.565,
    49.926, 50.286, 50.644, 51.000, 51.355, 51.708, 52.060, 52.410, 52.759, 53.106,
    53.451, 53.795, 54.138, 54.479, 54.819]

/-! ### Basic facts about the Type K table -/

/-- The millivolt column has 165 entries. -/
lemma mv_length : TypeK.millivolts.length = 165 := by with_unfolding_all rfl

set_option maxHeartbeats 2000000 in
/-- The millivolt column is strictly increasing (checked entry by entry). -/
lemma mv_pairwise : List.Pairwise (fun a b : ℚ => a < b) TypeK.millivolts :=
  of_decide_eq_true (by with_unfolding_all rfl)

/-- Strict monotonicity of the millivolt column, in index form. -/
lemma mv_mono {i j : ℕ} (hij : i < j) (hj : j < 165) :
    TypeK.millivolts.getD i 0 < TypeK.millivolts.getD j 0 := by
  have hj' : j < TypeK.millivolts.length := by rw [mv_length]; exact hj
  have hi' : i < TypeK.millivolts.length := lt_trans hij hj'
  rw [List.getD_eq_getElem _ _ hi', List.getD_eq_getElem _ _ hj']
  exact List.pairwise_iff_getElem.mp mv_pairwise i j hi' hj' hij

/-- Weak monotonicity of the millivolt column. -/
lemma mv_mono_le {i j : ℕ} (hij : i ≤ j) (hj : j < 165) :
    TypeK.millivolts.getD i 0 ≤ TypeK.millivolts.getD j 0 := by
  rcases eq_or_lt_of_le hij with rfl | h
  · exact le_refl _
  · exact le_of_lt (mv_mono h hj)

/-- The degrees column spelled out as a closed map over `List.range`. -/
lemma deg_explicit :
    TypeK.degrees = (List.range 165).map (fun i : ℕ => (-270 : ℚ) + 10 * i) := by
  with_unfolding_all rfl

/-- The degrees column has 165 entries. -/
lemma deg_length : TypeK.degrees.length = 165 := by with_unfolding_all rfl

/-- Entry `k` of the degrees column is `-270 + 10 * k`. -/
lemma deg_getD {k : ℕ} (hk : k < 165) :
    TypeK.degrees.getD k 0 = -270 + 10 * (k : ℚ) := by
  rw [deg_explicit]
  have hk' : k < ((List.range 165).map (fun i : ℕ => (-270 : ℚ) + 10 * i)).length := by
    simpa using hk
  rw [List.getD_eq_getElem _ _ hk', List.getElem_map, List.getElem_range]

/-- The interpolator the mixin builds for Type K, with its fields spelled out. -/
lemma interp_eq : TypeK.interp = Interpolate.mk 10 TypeK.degrees TypeK.millivolts := rfl

/-! ### Python float modulo -/

/-- Python `a % b` is nonnegative for a positive divisor. -/
lemma pymod_nonneg (a : ℚ) {b : ℚ} (hb : 0 < b) : 0 ≤ pymod a b := by
  unfold pymod
  have h := Int.floor_le (a / b)
  have h2 : b * ((⌊a / b⌋ : ℤ) : ℚ) ≤ b * (a / b) :=
    mul_le_mul_of_nonneg_left h (le_of_lt hb)
  rw [mul_comm b (a / b), div_mul_cancel₀ a (ne_of_gt hb)] at h2
  linarith

/-- Python `a % b` is below a positive divisor. -/
lemma pymod_lt (a : ℚ) {b : ℚ} (hb : 0 < b) : pymod a b < b := by
  unfold pymod
  have h := Int.lt_floor_add_one (a / b)
  have h2 : b * (a / b) < b * (((⌊a / b⌋ : ℤ) : ℚ) + 1) :=
    mul_lt_mul_of_pos_left h hb
  rw [mul_comm b (a / b), div_mul_cancel₀ a (ne_of_gt hb)] at h2
  have h3 : b * (((⌊a / b⌋ : ℤ) : ℚ) + 1) = b * ((⌊a / b⌋ : ℤ) : ℚ) + b := by ring
  linarith

/-! ### Correctness of the bisect loop -/

/-- Loop invariant of `bisect_right`: on a strictly increasing list, starting
from a window whose left part is `≤ v` and whose right part is `> v`, the loop
lands inside the window, everything left of the answer is `≤ v`, and
everything from the answer on is `> v`. -/
lemma bisect_rec_spec (a : List ℚ) (v : ℚ)
    (mono : ∀ i j : ℕ, i < j → j < a.length → a.getD i 0 < a.getD j 0) :
    ∀ fuel lo hi : ℕ, hi ≤ a.length → lo ≤ hi → hi - lo ≤ fuel →
      (∀ j, j < lo → a.getD j 0 ≤ v) →
      (∀ j, hi ≤ j → j < a.length → v < a.getD j 0) →
      lo ≤ bisect_rec a v fuel lo hi ∧ bisect_rec a v fuel lo hi ≤ hi ∧
      (∀ j, j < bisect_rec a v fuel lo hi → a.getD j 0 ≤ v) ∧
      (∀ j, bisect_rec a v fuel lo hi ≤ j → j < a.length → v < a.getD j 0) := by
  intro fuel
  induction fuel with
  | zero =>
    intro lo hi hhi hlohi hfuel hlow hhigh
    have hEq : lo = hi := by omega
    subst hEq
    simp only [bisect_rec]
    exact ⟨le_refl _, le_refl _, hlow, hhigh⟩
  | succ fuel ih =>
    intro lo hi hhi hlohi hfuel hlow hhigh
    by_cases hlh : lo < hi
    · simp only [bisect_rec, if_pos hlh]
      have hmid_lt : (lo + hi) / 2 < hi := by omega
      have hmid_ge : lo ≤ (lo + hi) / 2 := by omega
      by_cases hv : v < a.getD ((lo + hi) / 2) 0
      · simp only [if_pos hv]
        obtain ⟨h1, h2, h3, h4⟩ :=
          ih lo ((lo + hi) / 2) (le_trans (le_of_lt hmid_lt) hhi) hmid_ge (by omega) hlow
            (fun j hj hjl => by
              rcases eq_or_lt_of_le hj with rfl | h
              · exact hv
              · exact lt_trans hv (mono _ j h hjl))
        exact ⟨h1, le_trans h2 (le_of_lt hmid_lt), h3, h4⟩
      · simp only [if_neg hv]
        push_neg at hv
        obtain ⟨h1, h2, h3, h4⟩ :=
          ih ((lo + hi) / 2 + 1) hi hhi (by omega) (by omega)
            (fun j hj => by
              rcases Nat.lt_succ_iff_lt_or_eq.mp hj with h | rfl
              · exact le_of_lt
                  (lt_of_lt_of_le (mono j _ h (lt_of_lt_of_le hmid_lt hhi)) hv)
              · exact hv)
            hhigh
        exact ⟨le_trans (by omega) h1, h2, h3, h4⟩
    · have hEq : lo = hi := by omega
      simp only [bisect_rec, if_neg hlh]
      exact ⟨le_refl _, le_of_eq hEq, hlow, fun j hj hjl => hhigh j (hEq ▸ hj) hjl⟩

/-- Running `bisect` over the whole list: insertion-point characterisation. -/
lemma bisect_spec (a : List ℚ) (v : ℚ)
    (mono : ∀ i j : ℕ, i < j → j < a.length → a.getD i 0 < a.getD j 0) :
    bisect a v ≤ a.length ∧
    (∀ j, j < bisect a v → a.getD j 0 ≤ v) ∧
    (∀ j, bisect a v ≤ j → j < a.length → v < a.getD j 0) := by
  have h := bisect_rec_spec a v mono a.length 0 a.length (le_refl _) (Nat.zero_le _)
    (by omega) (fun j hj => absurd hj (Nat.not_lt_zero j))
    (fun j hj hjl => absurd (lt_of_le_of_lt hj hjl) (lt_irrefl _))
  exact ⟨h.2.1, h.2.2.1, h.2.2.2⟩

/-- If `a[k] ≤ v < a[k+1]` on a strictly increasing list, `bisect` answers `k+1`. -/
lemma bisect_eq (a : List ℚ) (v : ℚ)
    (mono : ∀ i j : ℕ, i < j → j < a.length → a.getD i 0 < a.getD j 0)
    {k : ℕ} (hk : k + 1 < a.length)
    (h1 : a.getD k 0 ≤ v) (h2 : v < a.getD (k + 1) 0) :
    bisect a v = k + 1 := by
  obtain ⟨hle, hlow, hhigh⟩ := bisect_spec a v mono
  by_contra hne
  rcases Nat.lt_or_ge (bisect a v) (k + 1) with h | h
  · exact absurd (hhigh k (by omega) (by omega)) (not_lt.mpr h1)
  · exact absurd (hlow (k + 1) (by omega)) (not_le.mpr h2)

/-- Strict monotonicity phrased against the list length, as `bisect_spec` wants. -/
lemma mv_mono_len : ∀ i j : ℕ, i < j → j < TypeK.millivolts.length →
    TypeK.millivolts.getD i 0 < TypeK.millivolts.getD j 0 := by
  intro i j hij hj
  rw [mv_length] at hj
  exact mv_mono hij hj

/-! ### Evaluation of the forward interpolation on the Type K table -/

/-- For in-range degrees the bracket index of the source `int(d//10+28)` is `k+1`
with `k = toNat (⌊d/10⌋ + 27) ≤ 163`, and `from_x` is the linear blend of the
millivolt entries `k` and `k+1`. -/
lemma from_x_eq (d : ℚ) (h1 : -270 ≤ d) (h2 : d < 1370) :
    ((⌊d / 10⌋ + 27).toNat : ℤ) = ⌊d / 10⌋ + 27 ∧ (⌊d / 10⌋ + 27).toNat ≤ 163 ∧
    TypeK.interp.from_x d
      = TypeK.millivolts.getD (⌊d / 10⌋ + 27).toNat 0
        + (TypeK.millivolts.getD ((⌊d / 10⌋ + 27).toNat + 1) 0
            - TypeK.millivolts.getD (⌊d / 10⌋ + 27).toNat 0) / 10 * pymod d 10 := by
  have hfl : (-27 : ℤ) ≤ ⌊d / 10⌋ := by
    rw [Int.le_floor]
    push_cast
    linarith
  have hfu : ⌊d / 10⌋ ≤ 136 := by
    have h137 : ⌊d / 10⌋ < 137 := by
      rw [Int.floor_lt]
      push_cast
      linarith
    omega
  refine ⟨by omega, by omega, ?_⟩
  rw [interp_eq]
  simp only [Interpolate.from_x]
  push_cast
  rw [show ⌊d / 10⌋ + 28 - 1 = ⌊d / 10⌋ + 27 from by ring,
    show (⌊d / 10⌋ + 28).toNat = (⌊d / 10⌋ + 27).toNat + 1 from by omega]
  ring

/-- The forward interpolation lands in the half-open bracket
`[millivolts[k], millivolts[k+1])`. -/
lemma from_x_bracket (d : ℚ) (h1 : -270 ≤ d) (h2 : d < 1370) :
    TypeK.millivolts.getD (⌊d / 10⌋ + 27).toNat 0 ≤ TypeK.interp.from_x d ∧
    TypeK.interp.from_x d < TypeK.millivolts.getD ((⌊d / 10⌋ + 27).toNat + 1) 0 := by
  obtain ⟨hcast, hk163, heq⟩ := from_x_eq d h1 h2
  have hoff0 : 0 ≤ pymod d 10 := pymod_nonneg d (by norm_num)
  have hoff1 : pymod d 10 < 10 := pymod_lt d (by norm_num)
  set Y1 := TypeK.millivolts.getD (⌊d / 10⌋ + 27).toNat 0 with hY1
  set Y2 := TypeK.millivolts.getD ((⌊d / 10⌋ + 27).toNat + 1) 0 with hY2
  have hmono : Y1 < Y2 := mv_mono (Nat.lt_succ_self _) (by omega)
  rw [heq]
  constructor
  · have h0 : 0 ≤ (Y2 - Y1) / 10 * pymod d 10 :=
      mul_nonneg (div_nonneg (by linarith) (by norm_num)) hoff0
    linarith
  · have hlt : (Y2 - Y1) / 10 * pymod d 10 < (Y2 - Y1) / 10 * 10 :=
      mul_lt_mul_of_pos_left hoff1 (div_pos (by linarith) (by norm_num))
    rw [div_mul_cancel₀ _ (by norm_num : (10 : ℚ) ≠ 0)] at hlt
    linarith

/-! ### Concrete anchor values -/

/-- The first millivolt entry. -/
lemma mv_getD_zero : TypeK.millivolts.getD 0 0 = -6.458 := by with_unfolding_all rfl

/-- The last millivolt entry. -/
lemma mv_getD_last : TypeK.millivolts.getD 164 0 = 54.819 := by with_unfolding_all rfl

/-- The next-to-last millivolt entry. -/
lemma mv_getD_163 : TypeK.millivolts.getD 163 0 = 54.479 := by with_unfolding_all rfl

/-- The scalar constants of TypeK. -/
lemma typek_consts :
    TypeK.min_degrees = -270 ∧ TypeK.max_degrees = 1370 ∧
    TypeK.min_mv = -6.458 ∧ TypeK.max_mv = 54.818 :=
  ⟨rfl, rfl, rfl, rfl⟩

/-! ### Claim theorems -/

/-- C1: for every `x_value` in `[x[0], x[N-1])`, `Interpolate.from_x` returns
`y[i-1] + (y[i] - y[i-1]) / x_interval * offset` with bracket index
`i = floor((x_value - x[0]) / x_interval) + 1` and
`offset = (x_value - x[0]) mod x_interval`; when `offset = 0` the result is
exactly `y[i-1]`. -/
theorem from_x_linear_blend (x_value : ℚ)
    (h1 : TypeK.degrees.getD 0 0 ≤ x_value)
    (h2 : x_value < TypeK.degrees.getD 164 0) :
    TypeK.interp.from_x x_value
      = TypeK.millivolts.getD ((⌊(x_value - TypeK.degrees.getD 0 0) / 10⌋ + 1).toNat - 1) 0
        + (TypeK.millivolts.getD (⌊(x_value - TypeK.degrees.getD 0 0) / 10⌋ + 1).toNat 0
            - TypeK.millivolts.getD
                ((⌊(x_value - TypeK.degrees.getD 0 0) / 10⌋ + 1).toNat - 1) 0)
          / 10 * pymod (x_value - TypeK.degrees.getD 0 0) 10
    ∧ (pymod (x_value - TypeK.degrees.getD 0 0) 10 = 0 →
        TypeK.interp.from_x x_value
          = TypeK.millivolts.getD
              ((⌊(x_value - TypeK.degrees.getD 0 0) / 10⌋ + 1).toNat - 1) 0) := by
  have hx0 : TypeK.degrees.getD 0 0 = -270 := by
    rw [deg_getD (by norm_num)]
    norm_num
  have hx164 : TypeK.degrees.getD 164 0 = 1370 := by
    rw [deg_getD (by norm_num)]
    norm_num
  rw [hx0] at h1
  rw [hx164] at h2
  rw [hx0]
  rw [show x_value - (-270 : ℚ) = x_value + 270 from by ring]
  have hfadd : ⌊(x_value + 270) / 10⌋ = ⌊x_value / 10⌋ + 27 := by
    rw [show (x_value + 270) / 10 = x_value / 10 + ((27 : ℤ) : ℚ) from by push_cast; ring,
      Int.floor_add_int]
  have hpm : pymod (x_value + 270) 10 = pymod x_value 10 := by
    unfold pymod
    rw [hfadd]
    push_cast
    ring
  rw [hfadd, hpm]
  obtain ⟨hcast, hk163, heq⟩ := from_x_eq x_value h1 h2
  have hidx : (⌊x_value / 10⌋ + 27 + 1).toNat = (⌊x_value / 10⌋ + 27).toNat + 1 := by
    omega
  rw [hidx, Nat.add_sub_cancel]
  refine ⟨by rw [heq], fun hz => ?_⟩
  rw [heq, hz]
  ring

/-- The hypotheses of `from_x_linear_blend` hold at 25, and its conclusion
evaluates there. -/
theorem from_x_linear_blend_witness :
    TypeK.interp.from_x 25
      = TypeK.millivolts.getD ((⌊((25 : ℚ) - TypeK.degrees.getD 0 0) / 10⌋ + 1).toNat - 1) 0
        + (TypeK.millivolts.getD (⌊((25 : ℚ) - TypeK.degrees.getD 0 0) / 10⌋ + 1).toNat 0
            - TypeK.millivolts.getD
                ((⌊((25 : ℚ) - TypeK.degrees.getD 0 0) / 10⌋ + 1).toNat - 1) 0)
          / 10 * pymod ((25 : ℚ) - TypeK.degrees.getD 0 0) 10 :=
  (from_x_linear_blend 25 (of_decide_eq_true (by with_unfolding_all rfl))
    (of_decide_eq_true (by with_unfolding_all rfl))).1

/-- C2: for every `y_value` in `[y[0], y[N-1])`, `Interpolate.from_y` locates
via `bisect` the smallest index `i` with `y[i] > y_value` and returns
`x[i-1] + x_interval / (y[i] - y[i-1]) * (y_value - y[i-1])`. -/
theorem from_y_insertion_point (y_value : ℚ)
    (h1 : TypeK.millivolts.getD 0 0 ≤ y_value)
    (h2 : y_value < TypeK.millivolts.getD 164 0) :
    y_value < TypeK.millivolts.getD (bisect TypeK.millivolts y_value) 0 ∧
    (∀ j, j < bisect TypeK.millivolts y_value →
      TypeK.millivolts.getD j 0 ≤ y_value) ∧
    TypeK.interp.from_y y_value
      = TypeK.degrees.getD (bisect TypeK.millivolts y_value - 1) 0
        + 10 / (TypeK.millivolts.getD (bisect TypeK.millivolts y_value) 0
            - TypeK.millivolts.getD (bisect TypeK.millivolts y_value - 1) 0)
          * (y_value - TypeK.millivolts.getD (bisect TypeK.millivolts y_value - 1) 0) := by
  obtain ⟨hle, hlow, hhigh⟩ := bisect_spec TypeK.millivolts y_value mv_mono_len
  set r := bisect TypeK.millivolts y_value with hr
  have hlen : r ≤ 165 := by
    rw [mv_length] at hle
    exact hle
  have hr164 : r ≤ 164 := by
    by_contra h
    have h165 : r = 165 := by omega
    exact absurd (hlow 164 (by omega)) (not_le.mpr h2)
  refine ⟨hhigh r (le_refl _) (by rw [mv_length]; omega), hlow, ?_⟩
  rw [interp_eq]
  simp only [Interpolate.from_y]
  rw [← hr]
  push_cast
  ring

/-- The hypotheses of `from_y_insertion_point` hold at 0, and its conclusion
evaluates there. -/
theorem from_y_insertion_point_witness :
    TypeK.interp.from_y 0
      = TypeK.degrees.getD (bisect TypeK.millivolts 0 - 1) 0
        + 10 / (TypeK.millivolts.getD (bisect TypeK.millivolts 0) 0
            - TypeK.millivolts.getD (bisect TypeK.millivolts 0 - 1) 0)
          * ((0 : ℚ) - TypeK.millivolts.getD (bisect TypeK.millivolts 0 - 1) 0) :=
  (from_y_insertion_point 0 (of_decide_eq_true (by with_unfolding_all rfl))
    (of_decide_eq_true (by with_unfolding_all rfl))).2.2

/-- C3: `temperature` computes `mv_to_degs (degs_to_mv reference + junction)`
and a RangeError of either internal stage propagates unchanged to the caller,
with no partial result and no wrapping. -/
theorem temperature_composes :
    (∀ r j v : ℚ, TypeK.degs_to_mv r = Except.ok v →
      TypeK.temperature r j = TypeK.mv_to_degs (v + j)) ∧
    (∀ r j : ℚ, ∀ e : RangeError, TypeK.degs_to_mv r = Except.error e →
      TypeK.temperature r j = Except.error e) ∧
    (∀ r j v : ℚ, ∀ e : RangeError, TypeK.degs_to_mv r = Except.ok v →
      TypeK.mv_to_degs (v + j) = Except.error e →
      TypeK.temperature r j = Except.error e) := by
  refine ⟨fun r j v hv => ?_, fun r j e he => ?_, fun r j v e hv he => ?_⟩
  · unfold ThermocoupleMixin.temperature
    rw [hv]
  · unfold ThermocoupleMixin.temperature
    rw [he]
  · unfold ThermocoupleMixin.temperature
    rw [hv]
    exact he

/-- Evaluation of `temperature` at the demo inputs: composition at (20, 14), propagation of
the reference-side error at (2000, 14) and of the sum-side error at (20, 60). -/
theorem temperature_composes_witness :
    TypeK.temperature 20 14 = TypeK.mv_to_degs (0.798 + 14) ∧
    TypeK.temperature 2000 14 = Except.error ⟨2000, "mV out of range."⟩ ∧
    TypeK.temperature 20 60 = Except.error ⟨60.798, "mV out of range."⟩ :=
  ⟨temperature_composes.1 20 14 0.798 (by with_unfolding_all rfl),
   temperature_composes.2.1 2000 14 ⟨2000, "mV out of range."⟩ (by with_unfolding_all rfl),
   temperature_composes.2.2 20 60 0.798 ⟨60.798, "mV out of range."⟩
     (by with_unfolding_all rfl) (by with_unfolding_all rfl)⟩

/-- C4: `degs_to_mv` fails with RangeError iff the input lies outside
`[min_degrees, max_degrees)`; `max_degrees` and `min_degrees - eps` are
rejected while `min_degrees` succeeds with `interp.from_x min_degrees`. -/
theorem degs_to_mv_range_check :
    (∀ d : ℚ, (∃ e, TypeK.degs_to_mv d = Except.error e)
        ↔ ¬(TypeK.min_degrees ≤ d ∧ d < TypeK.max_degrees)) ∧
    TypeK.degs_to_mv TypeK.max_degrees
      = Except.error ⟨TypeK.max_degrees, "mV out of range."⟩ ∧
    (∀ ε : ℚ, 0 < ε → TypeK.degs_to_mv (TypeK.min_degrees - ε)
      = Except.error ⟨TypeK.min_degrees - ε, "mV out of range."⟩) ∧
    TypeK.degs_to_mv TypeK.min_degrees
      = Except.ok (TypeK.interp.from_x TypeK.min_degrees) := by
  refine ⟨fun d => ?_, ?_, fun ε hε => ?_, ?_⟩
  · unfold ThermocoupleMixin.degs_to_mv
    by_cases h : TypeK.min_degrees ≤ d ∧ d < TypeK.max_degrees
    · rw [if_pos h]
      constructor
      · rintro ⟨e, he⟩
        exact Except.noConfusion he
      · intro hn
        exact absurd h hn
    · rw [if_neg h]
      exact ⟨fun _ => h, fun _ => ⟨_, rfl⟩⟩
  · unfold ThermocoupleMixin.degs_to_mv
    rw [if_neg (fun h => lt_irrefl _ h.2)]
  · unfold ThermocoupleMixin.degs_to_mv
    rw [if_neg (fun h => absurd h.1 (not_le.mpr (by linarith)))]
  · unfold ThermocoupleMixin.degs_to_mv
    rw [if_pos ⟨le_refl _, by
      rw [show TypeK.min_degrees = (-270 : ℚ) from rfl,
        show TypeK.max_degrees = (1370 : ℚ) from rfl]
      norm_num⟩]

/-- Here `degs_to_mv` rejects `min_degrees - 1` with the expected error. -/
theorem degs_to_mv_range_check_witness :
    TypeK.degs_to_mv (TypeK.min_degrees - 1)
      = Except.error ⟨TypeK.min_degrees - 1, "mV out of range."⟩ :=
  degs_to_mv_range_check.2.2.1 1 (by norm_num)

/-- C5 (counterexample): 1369.99 is strictly inside (min_degrees, max_degrees)
yet the round trip raises RangeError, because the forward value 54.81866
already exceeds max_mv = 54.818 (the last table entry being 54.819). -/
theorem roundtrip_fails_near_top :
    TypeK.min_degrees < 1369.99 ∧ (1369.99 : ℚ) < TypeK.max_degrees ∧
    (TypeK.degs_to_mv 1369.99).bind TypeK.mv_to_degs
      = Except.error ⟨54.81866, "mV out of range."⟩ :=
  ⟨of_decide_eq_true (by with_unfolding_all rfl),
   of_decide_eq_true (by with_unfolding_all rfl),
   by with_unfolding_all rfl⟩

/-- C5 (amended): for d strictly inside (min_degrees, max_degrees) whose
forward conversion stays below max_mv, the round trip succeeds and the result
is within one interpolation step (10 degrees) of d; in exact arithmetic it
equals d. -/
theorem roundtrip_within_step (d : ℚ)
    (h1 : TypeK.min_degrees < d) (h2 : d < TypeK.max_degrees)
    (h3 : TypeK.interp.from_x d < TypeK.max_mv) :
    ∃ r : ℚ, (TypeK.degs_to_mv d).bind TypeK.mv_to_degs = Except.ok r ∧
      |r - d| ≤ 10 := by
  rw [show TypeK.min_degrees = (-270 : ℚ) from rfl] at h1
  rw [show TypeK.max_degrees = (1370 : ℚ) from rfl] at h2
  have h1' : -270 ≤ d := le_of_lt h1
  obtain ⟨hcast, hk163, heq⟩ := from_x_eq d h1' h2
  obtain ⟨hbr1, hbr2⟩ := from_x_bracket d h1' h2
  set k := (⌊d / 10⌋ + 27).toNat with hk
  set mv := TypeK.interp.from_x d with hmv
  have hd2m : TypeK.degs_to_mv d = Except.ok mv := by
    unfold ThermocoupleMixin.degs_to_mv
    rw [if_pos ⟨by rw [show TypeK.min_degrees = (-270 : ℚ) from rfl]; exact h1',
      by rw [show TypeK.max_degrees = (1370 : ℚ) from rfl]; exact h2⟩]
  have hminmv : TypeK.min_mv ≤ mv := by
    rw [show TypeK.min_mv = (-6.458 : ℚ) from rfl, ← mv_getD_zero]
    calc TypeK.millivolts.getD 0 0
        ≤ TypeK.millivolts.getD k 0 := mv_mono_le (Nat.zero_le k) (by omega)
      _ ≤ mv := hbr1
  have hmv2d : TypeK.mv_to_degs mv = Except.ok (TypeK.interp.from_y mv) := by
    unfold ThermocoupleMixin.mv_to_degs
    rw [if_pos ⟨hminmv, h3⟩]
  have hb : bisect TypeK.millivolts mv = k + 1 :=
    bisect_eq TypeK.millivolts mv mv_mono_len (by rw [mv_length]; omega) hbr1 hbr2
  have hkq : (k : ℚ) = ((⌊d / 10⌋ : ℤ) : ℚ) + 27 := by
    have h := congrArg (fun z : ℤ => (z : ℚ)) hcast
    push_cast at h
    exact h
  have hΔ : TypeK.millivolts.getD k 0 < TypeK.millivolts.getD (k + 1) 0 :=
    mv_mono (Nat.lt_succ_self k) (by omega)
  have hfy : TypeK.interp.from_y mv = d := by
    rw [interp_eq]
    simp only [Interpolate.from_y]
    rw [hb, Nat.add_sub_cancel]
    rw [heq, deg_getD (by omega)]
    push_cast
    set Y1 := TypeK.millivolts.getD k 0 with hY1
    set Y2 := TypeK.millivolts.getD (k + 1) 0 with hY2
    have hne : Y2 - Y1 ≠ 0 := sub_ne_zero.mpr (ne_of_gt hΔ)
    have hcancel : (10 : ℚ) / (Y2 - Y1) * (Y1 + (Y2 - Y1) / 10 * pymod d 10 - Y1)
        = pymod d 10 := by
      field_simp
      ring
    rw [hcancel, hkq]
    unfold pymod
    ring
  refine ⟨d, ?_, by rw [sub_self, abs_zero]; norm_num⟩
  rw [hd2m]
  show TypeK.mv_to_degs mv = Except.ok d
  rw [hmv2d, hfy]

/-- Theorem `roundtrip_within_step` instantiated at 500 degrees. -/
theorem roundtrip_within_step_witness :
    ∃ r : ℚ, (TypeK.degs_to_mv 500).bind TypeK.mv_to_degs = Except.ok r ∧
      |r - 500| ≤ 10 :=
  roundtrip_within_step 500 (of_decide_eq_true (by with_unfolding_all rfl))
    (of_decide_eq_true (by with_unfolding_all rfl))
    (of_decide_eq_true (by with_unfolding_all rfl))

/-- C6 (counterexample): the declared upper millivolt bound is 54.818 while
the last table entry is 54.819, so `max_mv` is not the last entry of the
millivolt column. -/
theorem typek_bounds_gap :
    TypeK.max_mv = 54.818 ∧ TypeK.millivolts.getD 164 0 = 54.819 ∧
    TypeK.max_mv ≠ TypeK.millivolts.getD 164 0 := by
  refine ⟨rfl, mv_getD_last, ?_⟩
  rw [mv_getD_last, show TypeK.max_mv = (54.818 : ℚ) from rfl]
  norm_num

/-- C6 (amended): three of the four declared bounds equal the corresponding
first/last column entries, but `max_mv = 54.818` differs from the last
millivolt entry 54.819. -/
theorem typek_bounds_eq :
    TypeK.degrees.length = 165 ∧ TypeK.millivolts.length = 165 ∧
    TypeK.min_degrees = TypeK.degrees.getD 0 0 ∧
    TypeK.max_degrees = TypeK.degrees.getD 164 0 ∧
    TypeK.min_mv = TypeK.millivolts.getD 0 0 ∧
    TypeK.max_mv = 54.818 ∧ TypeK.millivolts.getD 164 0 = 54.819 := by
  refine ⟨deg_length, mv_length, ?_, ?_, ?_, rfl, mv_getD_last⟩
  · rw [deg_getD (by norm_num), show TypeK.min_degrees = (-270 : ℚ) from rfl]
    norm_num
  · rw [deg_getD (by norm_num), show TypeK.max_degrees = (1370 : ℚ) from rfl]
    norm_num
  · rw [mv_getD_zero, show TypeK.min_mv = (-6.458 : ℚ) from rfl]

/-- C7 (counterexample): the table has 165 sample points, not 154. -/
theorem typek_table_size :
    TypeK.degrees.length = 165 ∧ TypeK.degrees.length ≠ 154 ∧
    TypeK.millivolts.length = 165 := by
  refine ⟨deg_length, ?_, mv_length⟩
  rw [deg_length]
  norm_num

/-- C7 (amended): the degrees column runs from -270 to 1370 at a constant
10-degree step, giving 165 sample points; the millivolt column has matching
length and is strictly increasing throughout. -/
theorem typek_table_spec :
    TypeK.degrees.length = 165 ∧ TypeK.millivolts.length = TypeK.degrees.length ∧
    TypeK.degrees.getD 0 0 = -270 ∧ TypeK.degrees.getD 164 0 = 1370 ∧
    (∀ k : ℕ, k + 1 < 165 →
      TypeK.degrees.getD (k + 1) 0 - TypeK.degrees.getD k 0 = 10) ∧
    List.Pairwise (fun a b : ℚ => a < b) TypeK.millivolts := by
  refine ⟨deg_length, by rw [deg_length, mv_length], ?_, ?_, fun k hk => ?_,
    mv_pairwise⟩
  · rw [deg_getD (by norm_num)]
    norm_num
  · rw [deg_getD (by norm_num)]
    norm_num
  · rw [deg_getD (by omega), deg_getD (by omega)]
    push_cast
    ring

/-- The step property of `typek_table_spec` evaluated at the first step. -/
theorem typek_table_spec_witness :
    TypeK.degrees.getD 1 0 - TypeK.degrees.getD 0 0 = 10 :=
  typek_table_spec.2.2.2.2.1 0 (by norm_num)

/-- C8 (counterexample): at the matching boundary y[27] = 0.000 the inverse
lookup still returns x[27] = 0 exactly, so the claimed failure of
`millivolts_to_degrees(y[i]) == x[i]` at matching boundaries is false. -/
theorem mv_boundary_exact_at_27 :
    TypeK.mv_to_degs (TypeK.millivolts.getD 27 0)
      = Except.ok (TypeK.degrees.getD 27 0) := by
  with_unfolding_all rfl

/-- C8 (amended): a y_value equal to the table entry y[i] resolves to the
segment whose lower endpoint is that entry (bisect answers i+1), and because
the offset is then zero the identity `mv_to_degs (y[i]) = ok (x[i])` holds
exactly for every in-domain i. -/
theorem mv_boundary_resolution (i : ℕ) (h : i < 164) :
    bisect TypeK.millivolts (TypeK.millivolts.getD i 0) = i + 1 ∧
    TypeK.mv_to_degs (TypeK.millivolts.getD i 0)
      = Except.ok (TypeK.degrees.getD i 0) := by
  have hb : bisect TypeK.millivolts (TypeK.millivolts.getD i 0) = i + 1 :=
    bisect_eq TypeK.millivolts _ mv_mono_len (by rw [mv_length]; omega)
      (le_refl _) (mv_mono (Nat.lt_succ_self i) (by omega))
  have hcond : TypeK.min_mv ≤ TypeK.millivolts.getD i 0 ∧
      TypeK.millivolts.getD i 0 < TypeK.max_mv := by
    constructor
    · rw [show TypeK.min_mv = (-6.458 : ℚ) from rfl, ← mv_getD_zero]
      exact mv_mono_le (Nat.zero_le i) (by omega)
    · calc TypeK.millivolts.getD i 0
          ≤ TypeK.millivolts.getD 163 0 := mv_mono_le (by omega) (by norm_num)
        _ < TypeK.max_mv := by
            rw [mv_getD_163, show TypeK.max_mv = (54.818 : ℚ) from rfl]
            norm_num
  refine ⟨hb, ?_⟩
  unfold ThermocoupleMixin.mv_to_degs
  rw [if_pos hcond]
  congr 1
  rw [interp_eq]
  simp only [Interpolate.from_y]
  rw [hb, Nat.add_sub_cancel, sub_self, mul_zero, zero_add]

/-- Theorem `mv_boundary_resolution` instantiated at table index 100. -/
theorem mv_boundary_resolution_witness :
    bisect TypeK.millivolts (TypeK.millivolts.getD 100 0) = 101 ∧
    TypeK.mv_to_degs (TypeK.millivolts.getD 100 0)
      = Except.ok (TypeK.degrees.getD 100 0) :=
  mv_boundary_resolution 100 (by norm_num)

/-- C9 (counterexample): the error raised for 1370 by `degs_to_mv` (an upper
degrees-bound violation) is identical to the error raised for 1370 by
`mv_to_degs` (an upper millivolt-bound violation), so a RangeError does not
indicate which bound of which axis was violated. -/
theorem rangeerror_same_across_axes :
    TypeK.degs_to_mv 1370 = Except.error ⟨1370, "mV out of range."⟩ ∧
    TypeK.mv_to_degs 1370 = Except.error ⟨1370, "mV out of range."⟩ :=
  ⟨by with_unfolding_all rfl, by with_unfolding_all rfl⟩

/-- C9 (amended): every RangeError raised by `degs_to_mv` or `mv_to_degs`
carries the offending input value together with the one fixed message text
("mV out of range.", even for degree inputs); it carries no indication of
which bound was violated. -/
theorem rangeerror_value_only :
    (∀ d : ℚ, ¬(TypeK.min_degrees ≤ d ∧ d < TypeK.max_degrees) →
      TypeK.degs_to_mv d = Except.error ⟨d, "mV out of range."⟩) ∧
    (∀ v : ℚ, ¬(TypeK.min_mv ≤ v ∧ v < TypeK.max_mv) →
      TypeK.mv_to_degs v = Except.error ⟨v, "mV out of range."⟩) := by
  refine ⟨fun d hd => ?_, fun v hv => ?_⟩
  · unfold ThermocoupleMixin.degs_to_mv
    rw [if_neg hd]
  · unfold ThermocoupleMixin.mv_to_degs
    rw [if_neg hv]

/-- Theorem `rangeerror_value_only` applied to the out-of-range inputs 1370 (degrees
axis) and 60.798 (millivolt axis). -/
theorem rangeerror_value_only_witness :
    TypeK.degs_to_mv 1370 = Except.error ⟨1370, "mV out of range."⟩ ∧
    TypeK.mv_to_degs 60.798 = Except.error ⟨60.798, "mV out of range."⟩ :=
  ⟨rangeerror_value_only.1 1370
      (fun h => absurd h.2
        (by rw [show TypeK.max_degrees = (1370 : ℚ) from rfl]; exact lt_irrefl _)),
   rangeerror_value_only.2 60.798
      (fun h => absurd h.2
        (by rw [show TypeK.max_mv = (54.818 : ℚ) from rfl]; norm_num))⟩

/-- C10: on range-checked inputs the interpolation routines only touch valid
indices (the forward bracket index `idx = floor(d/x_interval) + 28` and the
backward `bisect` result lie in 1..164, against columns of length 165) and
every divisor is nonzero (`x_interval = 10`, and adjacent millivolt entries
differ by a positive amount). -/
theorem interp_no_oob_no_div_zero :
    (TypeK.interp.x_interval : ℚ) = 10 ∧
    TypeK.interp.x_array.length = 165 ∧ TypeK.interp.y_array.length = 165 ∧
    (∀ d : ℚ, TypeK.min_degrees ≤ d → d < TypeK.max_degrees →
      1 ≤ ⌊d / (TypeK.interp.x_interval : ℚ)⌋ + 28 ∧
      ⌊d / (TypeK.interp.x_interval : ℚ)⌋ + 28 ≤ 164) ∧
    (∀ v : ℚ, TypeK.min_mv ≤ v → v < TypeK.max_mv →
      1 ≤ bisect TypeK.interp.y_array v ∧ bisect TypeK.interp.y_array v ≤ 164 ∧
      TypeK.interp.y_array.getD (bisect TypeK.interp.y_array v - 1) 0
        < TypeK.interp.y_array.getD (bisect TypeK.interp.y_array v) 0) := by
  have hxi : (TypeK.interp.x_interval : ℚ) = 10 := by with_unfolding_all rfl
  have hya : TypeK.interp.y_array = TypeK.millivolts := rfl
  have hxa : TypeK.interp.x_array = TypeK.degrees := rfl
  refine ⟨hxi, by rw [hxa, deg_length], by rw [hya, mv_length],
    fun d hd1 hd2 => ?_, fun v hv1 hv2 => ?_⟩
  · rw [hxi]
    rw [show TypeK.min_degrees = (-270 : ℚ) from rfl] at hd1
    rw [show TypeK.max_degrees = (1370 : ℚ) from rfl] at hd2
    have hfl : (-27 : ℤ) ≤ ⌊d / 10⌋ := by
      rw [Int.le_floor]
      push_cast
      linarith
    have hfu : ⌊d / 10⌋ ≤ 136 := by
      have h137 : ⌊d / 10⌋ < 137 := by
        rw [Int.floor_lt]
        push_cast
        linarith
      omega
    exact ⟨by omega, by omega⟩
  · rw [hya]
    obtain ⟨hle, hlow, hhigh⟩ := bisect_spec TypeK.millivolts v mv_mono_len
    rw [show TypeK.min_mv = (-6.458 : ℚ) from rfl] at hv1
    rw [show TypeK.max_mv = (54.818 : ℚ) from rfl] at hv2
    have hv164 : v < TypeK.millivolts.getD 164 0 := by
      rw [mv_getD_last]
      exact lt_trans hv2 (by norm_num)
    have hv0 : TypeK.millivolts.getD 0 0 ≤ v := by
      rw [mv_getD_zero]
      exact hv1
    set r := bisect TypeK.millivolts v with hr
    have hlen : r ≤ 165 := by
      rw [mv_length] at hle
      exact hle
    have hr1 : 1 ≤ r := by
      by_contra h
      have := hhigh 0 (by omega) (by rw [mv_length]; norm_num)
      exact absurd this (not_lt.mpr hv0)
    have hr164 : r ≤ 164 := by
      by_contra h
      exact absurd (hlow 164 (by omega)) (not_le.mpr hv164)
    exact ⟨hr1, hr164, mv_mono (by omega) (by omega)⟩

/-- Theorem `interp_no_oob_no_div_zero` instantiated at in-range inputs 0 degrees and
0 millivolts. -/
theorem interp_no_oob_no_div_zero_witness :
    (1 ≤ ⌊(0 : ℚ) / (TypeK.interp.x_interval : ℚ)⌋ + 28 ∧
      ⌊(0 : ℚ) / (TypeK.interp.x_interval : ℚ)⌋ + 28 ≤ 164) ∧
    (1 ≤ bisect TypeK.interp.y_array 0 ∧ bisect TypeK.interp.y_array 0 ≤ 164 ∧
      TypeK.interp.y_array.getD (bisect TypeK.interp.y_array 0 - 1) 0
        < TypeK.interp.y_array.getD (bisect TypeK.interp.y_array 0) 0) :=
  ⟨interp_no_oob_no_div_zero.2.2.2.1 0 (of_decide_eq_true (by with_unfolding_all rfl))
      (of_decide_eq_true (by with_unfolding_all rfl)),
   interp_no_oob_no_div_zero.2.2.2.2 0 (of_decide_eq_true (by with_unfolding_all rfl))
      (of_decide_eq_true (by with_unfolding_all rfl))⟩
